import Mathlib

/-!
Verification development for the go-redis connection pool (`pool.go`) and the
cluster topology routing table.

The Go code is embedded shallowly and sequentially:

* a `*conn` pointer becomes a `Conn` value; pointer identity becomes value
  identity, with freshness of newly dialed connections expressed as explicit
  hypotheses on the dial oracle;
* the dialer together with the rate limiter becomes an oracle
  `Nat → DialStep`: each call of `connPool.new` consumes one oracle index and
  either is rejected by the rate limiter, fails to dial, or yields a
  connection;
* Go `panic` becomes the `Except.error` branch of `Except String`;
* channels and mutexes disappear: operations are atomic steps on a
  `PoolState`, and the blocking `PopWithTimeout` of the free stack becomes an
  immediate pop that yields `none` on an empty stack (the sequential semantics
  of a bounded blocking pop with no concurrent producer).
-/

/-- A transport connection.  `usedAt` is the last-used timestamp,
`buffered` the unread bytes sitting in the read buffer (`cn.rd.Buffered()`),
and `closeErr` the error that `cn.Close()` reports, if any. -/
structure Conn where
  id : Nat
  usedAt : Nat
  buffered : List Nat
  closeErr : Option String
deriving DecidableEq, Repr

/-- Pool configuration: the accessors `getPoolSize`, `getIdleTimeout` and
`getPoolTimeout` of `Options`.  An `idleTimeout` of `0` means idle eviction
is disabled. -/
structure Options where
  poolSize : Nat
  idleTimeout : Nat
  poolTimeout : Nat
deriving DecidableEq, Repr

/-- Outcome of one `connPool.new` call: the rate limiter rejects the dial,
the dial fails with a message, or the dial yields a fresh connection. -/
inductive DialStep where
  | limited
  | fail (msg : String)
  | ok (cn : Conn)
deriving DecidableEq, Repr

/-- Errors returned (as Go `error` values) by the pool operations. -/
inductive PoolErr where
  | closedPool
  | poolTimeout
  | rateLimited (last : String)
  | dialFailed (msg : String)
  | connClose (msg : String)
deriving DecidableEq, Repr

/-- The `reason` argument of `Remove`: either the protocol-desync error built
by `Put` from the unread bytes, or an arbitrary caller-supplied error. -/
inductive Reason where
  | protocolDesync (bytes : List Nat)
  | message (msg : String)
deriving DecidableEq, Repr

/-- The string stored by `storeLastErr(reason.Error())`; `Put` builds its
reason with `fmt.Errorf("connection has unread data: %q", b)`. -/
def Reason.render : Reason → String
  | .protocolDesync bytes => "connection has unread data: " ++ toString bytes
  | .message m => m

/-- `connList`: all known connections.  `cns = none` models the `nil` map the
list holds once closed; `size` is the separately maintained atomic counter. -/
structure ConnList where
  cns : Option (List Conn)
  size : Int
  max : Int
deriving DecidableEq, Repr

/-- `newConnList`. -/
def ConnList.empty (max : Nat) : ConnList :=
  { cns := some [], size := 0, max := (max : Int) }

/-- `connList.Reserve`: increment `size`, roll back when the result exceeds
`max`.  Returns the new list and whether the slot was reserved. -/
def ConnList.reserve (l : ConnList) : ConnList × Bool :=
  let size := l.size + 1
  let reserved := size ≤ l.max
  if reserved then ({ l with size := size }, true) else (l, false)

/-- `connList.Add`: insert into the map.  Inserting into the `nil` map of a
closed list is the Go runtime fault, modelled as the `Except.error` branch. -/
def ConnList.add (l : ConnList) (cn : Conn) : Except String ConnList :=
  match l.cns with
  | some cs => .ok { l with cns := some (cn :: cs) }
  | none => .error "assignment to entry in nil map"

/-- `connList.Remove`: `none` stands for the `nil` argument used to release a
reservation; removing an unknown connection from an open list is the
`conn not found in the list` fault.  The second component is the error
returned by `cn.Close()`. -/
def ConnList.removeConn (l : ConnList) : Option Conn → Except String (ConnList × Option String)
  | none => .ok ({ l with size := l.size - 1 }, none)
  | some cn =>
    match l.cns with
    | some cs =>
      if cn ∈ cs then
        .ok ({ l with cns := some (cs.erase cn), size := l.size - 1 }, cn.closeErr)
      else
        .error "conn not found in the list"
    | none => .ok (l, none)

/-- `connList.Replace`: swap `cn` for `newcn`, closing `cn`; on a closed list
the incoming `newcn` is closed instead. -/
def ConnList.replaceConn (l : ConnList) (cn newcn : Conn) : Except String (ConnList × Option String) :=
  match l.cns with
  | some cs =>
    if cn ∈ cs then
      .ok ({ l with cns := some (newcn :: cs.erase cn) }, cn.closeErr)
    else
      .error "conn not found in the list"
  | none => .ok (l, newcn.closeErr)

/-- `connList.Close`: close every connection, overwriting `retErr` with each
individual close error in iteration order, then drop the map and zero the
counter. -/
def ConnList.closeAll (l : ConnList) : ConnList × Option String :=
  let retErr := (l.cns.getD []).foldl
    (fun acc cn => match cn.closeErr with | some e => some e | none => acc) none
  ({ l with cns := none, size := 0 }, retErr)

/-- `connPool` state.  The free stack `connStack` is the list `freeConns`
with its top at the head; the counters are the `PoolStats` fields. -/
structure PoolState where
  conns : ConnList
  freeConns : List Conn
  requests : Nat
  hits : Nat
  waits : Nat
  timeouts : Nat
  closedFlag : Bool
  lastErr : Option String
deriving DecidableEq, Repr

/-- `newConnPool` (without the background reaper task; a reaper tick is the
explicit step `reaperTick`). -/
def PoolState.fresh (opt : Options) : PoolState :=
  { conns := ConnList.empty opt.poolSize, freeConns := []
    requests := 0, hits := 0, waits := 0, timeouts := 0
    closedFlag := false, lastErr := none }

/-- `connPool.isIdle`. -/
def isIdle (opt : Options) (now : Nat) (cn : Conn) : Bool :=
  decide (0 < opt.idleTimeout) && decide (opt.idleTimeout < now - cn.usedAt)

/-- `connPool.new`: consult the rate limiter, then dial.  Consumes one oracle
index; on dial failure the error message is stored as the pool's last error,
and a rate-limit rejection embeds the previously stored last error. -/
def newStep (oracle : Nat → DialStep) (k : Nat) (le : Option String) :
    Nat × Option String × Except PoolErr Conn :=
  match oracle k with
  | .limited => (k + 1, le, .error (PoolErr.rateLimited (le.getD "")))
  | .fail msg => (k + 1, some msg, .error (PoolErr.dialFailed msg))
  | .ok cn => (k + 1, le, .ok cn)

/-- `connPool.replace` acting on the registry component: dial a replacement;
on failure remove `cn` from the registry (its close error is discarded), on
success swap `cn` for the new connection. -/
def replaceStep (oracle : Nat → DialStep) (k : Nat) (cl : ConnList) (le : Option String)
    (cn : Conn) : Except String (Nat × ConnList × Option String × Except PoolErr Conn) :=
  match newStep oracle k le with
  | (k', le', .error e) =>
    match cl.removeConn (some cn) with
    | .error fault => .error fault
    | .ok (cl', _) => .ok (k', cl', le', .error e)
  | (k', le', .ok newcn) =>
    match cl.replaceConn cn newcn with
    | .error fault => .error fault
    | .ok (cl', _) => .ok (k', cl', le', .ok newcn)

/-- Result of the pop-and-replace loop shared by `connPool.First` and
`connPool.wait`: the remaining free stack, the next oracle index, the updated
registry, the updated last-error slot, and the connection obtained, if any. -/
structure LoopOut where
  free : List Conn
  k : Nat
  cl : ConnList
  le : Option String
  res : Option Conn
deriving DecidableEq, Repr

/-- The loop body of `connPool.First` / `connPool.wait`: pop from the free
stack; an idle connection is replaced, and a failed replacement is logged and
the loop continues with the next pop. -/
def firstLoop (opt : Options) (now : Nat) (oracle : Nat → DialStep) :
    List Conn → Nat → ConnList → Option String → Except String LoopOut
  | [], k, cl, le => .ok ⟨[], k, cl, le, none⟩
  | cn :: rest, k, cl, le =>
    if isIdle opt now cn then
      match replaceStep oracle k cl le cn with
      | .error fault => .error fault
      | .ok (k', cl', le', .error _) => firstLoop opt now oracle rest k' cl' le'
      | .ok (k', cl', le', .ok newcn) => .ok ⟨rest, k', cl', le', some newcn⟩
    else
      .ok ⟨rest, k, cl, le, some cn⟩

/-- `connPool.First` (and, with the sequential semantics of
`PopWithTimeout`, also `connPool.wait`). -/
def poolFirst (opt : Options) (now : Nat) (oracle : Nat → DialStep) (p : PoolState) (k : Nat) :
    Except String (PoolState × Nat × Option Conn) :=
  match firstLoop opt now oracle p.freeConns k p.conns p.lastErr with
  | .error fault => .error fault
  | .ok out =>
    .ok ({ p with freeConns := out.free, conns := out.cl, lastErr := out.le }, out.k, out.res)

/-- `connPool.Get`.  Returns the updated pool, the next oracle index, the
connection, the `isNew` flag and the error, mirroring the named return values
`(cn, isNew, err)`. -/
def poolGet (opt : Options) (now : Nat) (oracle : Nat → DialStep) (p : PoolState) (k : Nat) :
    Except String (PoolState × Nat × Option Conn × Bool × Option PoolErr) :=
  if p.closedFlag then
    .ok (p, k, none, false, some PoolErr.closedPool)
  else
    let p := { p with requests := p.requests + 1 }
    match firstLoop opt now oracle p.freeConns k p.conns p.lastErr with
    | .error fault => .error fault
    | .ok out =>
      let p := { p with freeConns := out.free, conns := out.cl, lastErr := out.le }
      match out.res with
      | some cn => .ok ({ p with hits := p.hits + 1 }, out.k, some cn, false, none)
      | none =>
        let rsv := p.conns.reserve
        let p := { p with conns := rsv.1 }
        if rsv.2 then
          match newStep oracle out.k p.lastErr with
          | (k', le', .error e) =>
            match p.conns.removeConn none with
            | .error fault => .error fault
            | .ok (cl', _) =>
              .ok ({ p with conns := cl', lastErr := le' }, k', none, true, some e)
          | (k', le', .ok cn) =>
            match p.conns.add cn with
            | .error fault => .error fault
            | .ok cl' =>
              .ok ({ p with conns := cl', lastErr := le' }, k', some cn, true, none)
        else
          let p := { p with waits := p.waits + 1 }
          match firstLoop opt now oracle p.freeConns out.k p.conns p.lastErr with
          | .error fault => .error fault
          | .ok out2 =>
            let p := { p with freeConns := out2.free, conns := out2.cl, lastErr := out2.le }
            match out2.res with
            | some cn => .ok (p, out2.k, some cn, false, none)
            | none =>
              .ok ({ p with timeouts := p.timeouts + 1 }, out2.k, none, false, some PoolErr.poolTimeout)

/-- `connPool.Remove`: record the reason as the last error, replace the
connection, and push the replacement onto the free stack; when the
replacement dial fails the error is returned and nothing is pushed. -/
def poolRemove (oracle : Nat → DialStep) (p : PoolState) (k : Nat) (cn : Conn)
    (reason : Reason) : Except String (PoolState × Nat × Option PoolErr) :=
  let p := { p with lastErr := some reason.render }
  match replaceStep oracle k p.conns p.lastErr cn with
  | .error fault => .error fault
  | .ok (k', cl', le', .error e) =>
    .ok ({ p with conns := cl', lastErr := le' }, k', some e)
  | .ok (k', cl', le', .ok newcn) =>
    .ok ({ p with conns := cl', lastErr := le', freeConns := newcn :: p.freeConns }, k', none)

/-- `connPool.Put`: a connection with unread buffered data is routed to
`Remove` with the desync reason; otherwise it is pushed onto the free
stack. -/
def poolPut (oracle : Nat → DialStep) (p : PoolState) (k : Nat) (cn : Conn) :
    Except String (PoolState × Nat × Option PoolErr) :=
  if cn.buffered ≠ [] then
    poolRemove oracle p k cn (Reason.protocolDesync cn.buffered)
  else
    .ok ({ p with freeConns := cn :: p.freeConns }, k, none)

/-- `connPool.Len`. -/
def poolLen (p : PoolState) : Int := p.conns.size

/-- `connPool.FreeLen`. -/
def poolFreeLen (p : PoolState) : Nat := p.freeConns.length

/-- `PoolStats` snapshot as produced by `connPool.Stats`. -/
structure PoolStats where
  requests : Nat
  hits : Nat
  waits : Nat
  timeouts : Nat
  totalConns : Int
  freeConns : Nat
deriving DecidableEq, Repr

/-- `connPool.Stats`. -/
def poolStats (p : PoolState) : PoolStats :=
  { requests := p.requests, hits := p.hits, waits := p.waits, timeouts := p.timeouts
    totalConns := poolLen p, freeConns := poolFreeLen p }

/-- The grace-drain loop of `connPool.Close`:
`for i := 0; i < p.Len(); i++ { if cn := p.wait(); cn == nil { break } }`.
`fuel` only bounds the recursion; it is initialised to the registry size at
entry, which the loop can never exceed because `i` grows by one per iteration
while `p.Len()` never grows under `wait`. -/
def closeDrain (opt : Options) (now : Nat) (oracle : Nat → DialStep) :
    Nat → Nat → PoolState → Nat → Except String (PoolState × Nat)
  | 0, _, p, k => .ok (p, k)
  | fuel + 1, i, p, k =>
    if (i : Int) < p.conns.size then
      match poolFirst opt now oracle p k with
      | .error fault => .error fault
      | .ok (p', k', none) => .ok (p', k')
      | .ok (p', k', some _) => closeDrain opt now oracle fuel (i + 1) p' k'
    else
      .ok (p, k)

/-- `connPool.Close`: one-shot via the closed flag, then the grace drain,
then `conns.Close`. -/
def poolClose (opt : Options) (now : Nat) (oracle : Nat → DialStep) (p : PoolState) (k : Nat) :
    Except String (PoolState × Nat × Option PoolErr) :=
  if p.closedFlag then
    .ok (p, k, some PoolErr.closedPool)
  else
    let p := { p with closedFlag := true }
    match closeDrain opt now oracle p.conns.size.toNat 0 p k with
    | .error fault => .error fault
    | .ok (p', k') =>
      let closed := p'.conns.closeAll
      .ok ({ p' with conns := closed.1 }, k', closed.2.map PoolErr.connClose)

/-- One tick of `connPool.reaper`: stop if the pool is closed, otherwise pop
one connection through `First` and `Put` it straight back (its error is
discarded). -/
def reaperTick (opt : Options) (now : Nat) (oracle : Nat → DialStep) (p : PoolState) (k : Nat) :
    Except String (PoolState × Nat) :=
  if p.closedFlag then
    .ok (p, k)
  else
    match poolFirst opt now oracle p k with
    | .error fault => .error fault
    | .ok (p', k', none) => .ok (p', k')
    | .ok (p', k', some cn) =>
      match poolPut oracle p' k' cn with
      | .error fault => .error fault
      | .ok (p'', k'', _) => .ok (p'', k'')

/-- `stickyConnPool` state over a backing `connPool`. -/
structure StickyState where
  pool : PoolState
  reusable : Bool
  cn : Option Conn
  closed : Bool
deriving DecidableEq, Repr

/-- `newStickyConnPool`. -/
def StickyState.fresh (p : PoolState) (reusable : Bool) : StickyState :=
  { pool := p, reusable := reusable, cn := none, closed := false }

/-- `stickyConnPool.Get`: once closed fail with the closed error; a pinned
connection is handed back unchanged; otherwise acquire from the backing pool
and pin the result. -/
def stickyGet (opt : Options) (now : Nat) (oracle : Nat → DialStep) (s : StickyState) (k : Nat) :
    Except String (StickyState × Nat × Option Conn × Bool × Option PoolErr) :=
  if s.closed then
    .ok (s, k, none, false, some PoolErr.closedPool)
  else
    match s.cn with
    | some c => .ok (s, k, some c, false, none)
    | none =>
      match poolGet opt now oracle s.pool k with
      | .error fault => .error fault
      | .ok (p', k', c1, isNew, some e) => .ok ({ s with pool := p' }, k', c1, isNew, some e)
      | .ok (p', k', c1, isNew, none) => .ok ({ s with pool := p', cn := c1 }, k', c1, isNew, none)

/-- The private `stickyConnPool.put`: hand the pinned connection to the
backing pool's `Put` and clear the pin.  A `nil` pin would make Go
dereference a nil `*conn`, modelled as a fault. -/
def stickyPutInner (oracle : Nat → DialStep) (s : StickyState) (k : Nat) :
    Except String (StickyState × Nat × Option PoolErr) :=
  match s.cn with
  | none => .error "invalid memory address or nil pointer dereference"
  | some c =>
    match poolPut oracle s.pool k c with
    | .error fault => .error fault
    | .ok (p', k', err) => .ok ({ s with pool := p', cn := none }, k', err)

/-- The private `stickyConnPool.remove`: remove the pinned connection from
the backing pool with the given reason and clear the pin. -/
def stickyRemoveInner (oracle : Nat → DialStep) (s : StickyState) (k : Nat) (reason : Reason) :
    Except String (StickyState × Nat × Option PoolErr) :=
  match s.cn with
  | none => .error "invalid memory address or nil pointer dereference"
  | some c =>
    match poolRemove oracle s.pool k c reason with
    | .error fault => .error fault
    | .ok (p', k', err) => .ok ({ s with pool := p', cn := none }, k', err)

/-- `stickyConnPool.Put`: the closed check precedes the identity assertion;
an identity mismatch on an open pool is the `p.cn != cn` panic.  The pin is
not released. -/
def stickyPut (s : StickyState) (cnArg : Option Conn) :
    Except String (StickyState × Option PoolErr) :=
  if s.closed then
    .ok (s, some PoolErr.closedPool)
  else if s.cn ≠ cnArg then
    .error "p.cn != cn"
  else
    .ok (s, none)

/-- `stickyConnPool.Remove`: the closed check precedes both the nil-pin and
the identity assertions. -/
def stickyRemove (oracle : Nat → DialStep) (s : StickyState) (k : Nat) (cnArg : Option Conn)
    (reason : Reason) : Except String (StickyState × Nat × Option PoolErr) :=
  if s.closed then
    .ok (s, k, some PoolErr.closedPool)
  else
    match s.cn with
    | none => .error "p.cn == nil"
    | some c =>
      if cnArg ≠ none ∧ cnArg ≠ some c then
        .error "p.cn != cn"
      else
        stickyRemoveInner oracle s k reason

/-- `stickyConnPool.Close`: one-shot; on the first close a pinned connection
is released through the backing pool's `Put` when `reusable`, and through
`Remove` with the not-reusable reason otherwise. -/
def stickyClose (oracle : Nat → DialStep) (s : StickyState) (k : Nat) :
    Except String (StickyState × Nat × Option PoolErr) :=
  if s.closed then
    .ok (s, k, some PoolErr.closedPool)
  else
    let s := { s with closed := true }
    match s.cn with
    | none => .ok (s, k, none)
    | some _ =>
      if s.reusable then
        stickyPutInner oracle s k
      else
        stickyRemoveInner oracle s k (Reason.message "redis: sticky not reusable connection")

/-- Number of hash slots of a cluster. -/
def HashSlots : Nat := 16384

/-- One slot-range descriptor `ClusterSlotInfo` of a topology update. -/
structure ClusterSlotInfo where
  startSlot : Nat
  endSlot : Nat
  addrs : List String
deriving DecidableEq, Repr

/-- Modelled from the spec: the body of `update` for one descriptor — every
slot inside the inclusive range is assigned the descriptor's address list
(the repository carries only the test of `update`, not its source). -/
def applySlotInfo (slots : Nat → List String) (info : ClusterSlotInfo) : Nat → List String :=
  fun s => if info.startSlot ≤ s ∧ s ≤ info.endSlot then info.addrs else slots s

/-- Modelled from the spec: `update(ranges)` assigns the descriptors in
order, later descriptors overwriting earlier ones on any overlap. -/
def clusterUpdate : (Nat → List String) → List ClusterSlotInfo → Nat → List String
  | slots, [] => slots
  | slots, info :: rest => clusterUpdate (applySlotInfo slots info) rest

/-- Modelled from the spec: the all-unassigned slot map produced by
`reset`. -/
def emptySlots : Nat → List String := fun _ => []

/-- Modelled from the spec: `GetMasterAddrBySlot` returns the first
(master-first ordered) address of the slot's entry, or the empty string when
the slot is unassigned. -/
def getMasterAddrBySlot (slots : Nat → List String) (slot : Nat) : String :=
  (slots slot).headD ""

/-- Modelled from the spec: `next(seen)` scans the sorted address set and
returns the first address not in `seen`, or the empty string once every
address has been seen. -/
def clusterNext (addrs : List String) (seen : List String) : String :=
  match addrs.find? (fun a => !(seen.contains a)) with
  | some a => a
  | none => ""

/-- The iterated retry-candidate selection of the spec: after `n` rounds of
asking `next` and adding the answer to `seen`, the pair of the accumulated
`seen` list and the list of produced answers. -/
def nextTrace (addrs : List String) : Nat → List String × List String
  | 0 => ([], [])
  | n + 1 =>
    let prev := nextTrace addrs n
    let a := clusterNext addrs prev.1
    if a = "" then prev else (prev.1 ++ [a], prev.2 ++ [a])

/-! Concrete sample data used by witnesses and counterexamples. -/

/-- A one-connection pool configuration with idle eviction disabled. -/
def optOne : Options := ⟨1, 0, 5⟩

/-- A clean connection. -/
def connA : Conn := ⟨1, 0, [], none⟩

/-- A connection with one unread buffered byte. -/
def connB : Conn := ⟨2, 0, [7], none⟩

/-- A connection whose close reports the error message e1. -/
def connE1 : Conn := ⟨3, 0, [], some "e1"⟩

/-- A connection whose close reports the error message e2. -/
def connE2 : Conn := ⟨4, 0, [], some "e2"⟩

/-- An oracle whose every dial fails. -/
def failOracle : Nat → DialStep := fun _ => DialStep.fail "boom"

/-- An oracle whose every dial yields `connA`. -/
def okOracleA : Nat → DialStep := fun _ => DialStep.ok connA

/-- The state of a capacity-one pool after `Close`: flag set, registry map
dropped, counter zeroed, free stack empty. -/
def poolClosedEmpty : PoolState :=
  { conns := { cns := none, size := 0, max := 1 }, freeConns := []
    requests := 0, hits := 0, waits := 0, timeouts := 0
    closedFlag := true, lastErr := none }

/-- An open capacity-one pool whose only registered connection is the
desynchronized `connB`, currently held by a caller. -/
def poolWithB : PoolState :=
  { conns := { cns := some [connB], size := 1, max := 1 }, freeConns := []
    requests := 0, hits := 0, waits := 0, timeouts := 0
    closedFlag := false, lastErr := none }

/-- C1, counterexample: on a fresh capacity-one pool whose dial fails, `Get`
reserves a slot, releases it again, and returns the dial error with
`isNew = true` — not `isNew = false` as claimed. -/
theorem c1_counterexample :
    poolGet optOne 0 failOracle (PoolState.fresh optOne) 0 =
      .ok ({ PoolState.fresh optOne with requests := 1, lastErr := some "boom" },
        1, none, true, some (PoolErr.dialFailed "boom")) := by
  rfl

/-- C1, amended: when the free list is empty, the registry slot is reserved
and the dial fails, `Get` releases the reservation (the registry, its size
included, is exactly as before) and returns the dial error with
`isNew = true`. -/
theorem c1_get_dial_failure_releases_reservation (opt : Options) (now : Nat)
    (oracle : Nat → DialStep) (p : PoolState) (k : Nat) (msg : String)
    (hopen : p.closedFlag = false) (hfree : p.freeConns = [])
    (hres : p.conns.size + 1 ≤ p.conns.max) (hd : oracle k = DialStep.fail msg) :
    ∃ p', poolGet opt now oracle p k =
        .ok (p', k + 1, none, true, some (PoolErr.dialFailed msg)) ∧
      p'.conns = p.conns ∧ p'.freeConns = [] ∧ p'.requests = p.requests + 1 ∧
      p'.hits = p.hits ∧ p'.waits = p.waits ∧ p'.timeouts = p.timeouts ∧
      p'.closedFlag = false ∧ p'.lastErr = some msg := by
  refine ⟨{ p with
            requests := p.requests + 1
            freeConns := []
            conns := { p.conns with size := p.conns.size + 1 - 1 }
            lastErr := some msg }, ?_, ?_, by rfl, by rfl, by rfl, by rfl, by rfl, hopen, by rfl⟩
  · simp [poolGet, hopen, hfree, firstLoop, ConnList.reserve, hres, newStep, hd,
      ConnList.removeConn]
  · cases hc : p.conns with
    | mk cns size max => simp

/-- C6: when the replacement dial inside `Remove` fails, the failed
connection is removed from the registry and the size decremented, nothing is
pushed onto the free stack, every other component of the pool except the
last-error record is unchanged, and the dial error is returned. -/
theorem c6_remove_dial_failure (oracle : Nat → DialStep) (p : PoolState) (k : Nat)
    (cn : Conn) (msg : String) (reason : Reason) (cs : List Conn)
    (hcs : p.conns.cns = some cs) (hmem : cn ∈ cs) (hd : oracle k = DialStep.fail msg) :
    poolRemove oracle p k cn reason =
      .ok ({ p with
             conns := { p.conns with cns := some (cs.erase cn), size := p.conns.size - 1 },
             lastErr := some msg },
        k + 1, some (PoolErr.dialFailed msg)) := by
  simp [poolRemove, replaceStep, newStep, hd, ConnList.removeConn, hcs, hmem]

/-- C6, witness. -/
theorem c6_remove_dial_failure_witness :
    poolRemove failOracle poolWithB 0 connB (Reason.message "broken") =
      .ok ({ poolWithB with
             conns := { poolWithB.conns with cns := some ([connB].erase connB), size := poolWithB.conns.size - 1 }
             lastErr := some "boom" },
        1, some (PoolErr.dialFailed "boom")) :=
  c6_remove_dial_failure failOracle poolWithB 0 connB "boom" (Reason.message "broken")
    [connB] (by decide) (by decide) (by decide)

/-- C10: after a sticky pool is closed, `Put` and `Remove` return the closed
error for every connection argument, the nil pin included, without reaching
the identity-mismatch fatal condition (the result is never the fault branch):
the closed-state check runs before the identity assertion. -/
theorem c10_sticky_ops_after_close (oracle : Nat → DialStep) (s : StickyState) (k : Nat)
    (cnArg : Option Conn) (reason : Reason) (hc : s.closed = true) :
    stickyPut s cnArg = .ok (s, some PoolErr.closedPool) ∧
    stickyRemove oracle s k cnArg reason = .ok (s, k, some PoolErr.closedPool) := by
  constructor
  · simp [stickyPut, hc]
  · simp [stickyRemove, hc]

/-- C10, witness. -/
theorem c10_sticky_ops_after_close_witness :
    stickyPut { pool := poolClosedEmpty, reusable := true, cn := none, closed := true }
        (some connA) =
      .ok ({ pool := poolClosedEmpty, reusable := true, cn := none, closed := true },
        some PoolErr.closedPool) ∧
    stickyRemove failOracle
        { pool := poolClosedEmpty, reusable := true, cn := none, closed := true } 0
        (some connA) (Reason.message "r") =
      .ok ({ pool := poolClosedEmpty, reusable := true, cn := none, closed := true }, 0,
        some PoolErr.closedPool) :=
  c10_sticky_ops_after_close failOracle
    { pool := poolClosedEmpty, reusable := true, cn := none, closed := true } 0
    (some connA) (Reason.message "r") (by rfl)

/-- C1, witness. -/
theorem c1_get_dial_failure_witness :
    ∃ p', poolGet optOne 0 failOracle (PoolState.fresh optOne) 0 =
        .ok (p', 0 + 1, none, true, some (PoolErr.dialFailed "boom")) ∧
      p'.conns = (PoolState.fresh optOne).conns ∧ p'.freeConns = [] ∧
      p'.requests = (PoolState.fresh optOne).requests + 1 ∧
      p'.hits = (PoolState.fresh optOne).hits ∧
      p'.waits = (PoolState.fresh optOne).waits ∧
      p'.timeouts = (PoolState.fresh optOne).timeouts ∧
      p'.closedFlag = false ∧ p'.lastErr = some "boom" :=
  c1_get_dial_failure_releases_reservation optOne 0 failOracle (PoolState.fresh optOne) 0
    "boom" (by rfl) (by rfl) (by decide) (by rfl)

/-- C3, counterexample: a `Get` on a closed pool fails with the closed-pool
error and leaves `Stats().Requests` untouched, so the counter does not
increment on every `Get` call. -/
theorem c3_counterexample :
    poolGet optOne 0 failOracle poolClosedEmpty 0 =
      .ok (poolClosedEmpty, 0, none, false, some PoolErr.closedPool) ∧
    (poolStats poolClosedEmpty).requests = 0 := by
  exact ⟨rfl, rfl⟩

/-- C3, amended: a `Get` on a closed pool returns the closed-pool error
without touching any counter; every `Get` on a pool that is not closed
increments `Stats().Requests` by exactly one, whatever the outcome. -/
theorem c3_get_requests_increment (opt : Options) (now : Nat) (oracle : Nat → DialStep)
    (p : PoolState) (k : Nat) :
    (p.closedFlag = true →
      poolGet opt now oracle p k = .ok (p, k, none, false, some PoolErr.closedPool)) ∧
    (p.closedFlag = false → ∀ r, poolGet opt now oracle p k = .ok r →
      (poolStats r.1).requests = (poolStats p).requests + 1) := by
  constructor
  · intro hc
    simp [poolGet, hc]
  · intro hopen r h
    simp only [poolGet, hopen, Bool.false_eq_true, if_false] at h
    split at h
    · exact absurd h (by simp)
    · split at h
      · injection h with h2
        subst h2
        simp [poolStats]
      · split at h
        · split at h
          · split at h
            · exact absurd h (by simp)
            · injection h with h2
              subst h2
              simp [poolStats]
          · split at h
            · exact absurd h (by simp)
            · injection h with h2
              subst h2
              simp [poolStats]
        · split at h
          · exact absurd h (by simp)
          · split at h
            · injection h with h2
              subst h2
              simp [poolStats]
            · injection h with h2
              subst h2
              simp [poolStats]

/-- C2, counterexample: `Put` of a connection with one unread byte, on a pool
whose replacement dial succeeds, routes through `Remove` and returns no error
at all — the protocol-desync error is recorded only as the pool's last error,
not surfaced to the caller of `Put`. -/
theorem c2_counterexample :
    poolPut okOracleA poolWithB 0 connB =
      .ok ({ poolWithB with
             conns := { poolWithB.conns with cns := some [connA] }
             freeConns := [connA]
             lastErr := some "connection has unread data: [7]" },
        1, none) := by
  rfl

/-- C2, amended: a connection with unread buffered data is never pushed onto
the free list; it is routed to `Remove` with a protocol-desync reason carrying
the offending bytes, whose rendering is recorded as the pool's last error, and
`Put` returns whatever `Remove` returns — no error when the replacement dial
succeeds, the dial error when it fails.  A connection with no unread data is
pushed onto the free list and `Put` returns no error. -/
theorem c2_put_desync_routing (oracle : Nat → DialStep) (p : PoolState) (k : Nat) (cn : Conn) :
    (cn.buffered = [] →
      poolPut oracle p k cn = .ok ({ p with freeConns := cn :: p.freeConns }, k, none)) ∧
    (cn.buffered ≠ [] →
      poolPut oracle p k cn = poolRemove oracle p k cn (Reason.protocolDesync cn.buffered)) ∧
    (∀ cs, cn.buffered ≠ [] → p.conns.cns = some cs → cn ∈ cs → cn ∉ p.freeConns →
      (∀ newcn, oracle k = DialStep.ok newcn → newcn ≠ cn →
        poolPut oracle p k cn =
          .ok ({ p with
                 conns := { p.conns with cns := some (newcn :: cs.erase cn) }
                 freeConns := newcn :: p.freeConns
                 lastErr := some ("connection has unread data: " ++ toString cn.buffered) },
            k + 1, none) ∧ cn ∉ newcn :: p.freeConns) ∧
      (∀ msg, oracle k = DialStep.fail msg →
        poolPut oracle p k cn =
          .ok ({ p with
                 conns := { p.conns with cns := some (cs.erase cn), size := p.conns.size - 1 }
                 lastErr := some msg },
            k + 1, some (PoolErr.dialFailed msg)) ∧ cn ∉ p.freeConns)) := by
  refine ⟨?_, ?_, ?_⟩
  · intro hz
    simp [poolPut, hz]
  · intro hnz
    simp [poolPut, hnz]
  · intro cs hnz hcs hmem hnf
    constructor
    · intro newcn hd hne
      constructor
      · simp [poolPut, hnz, poolRemove, replaceStep, newStep, hd, ConnList.replaceConn,
          hcs, hmem, Reason.render]
      · simp [List.mem_cons, hnf]
        exact fun hx => hne hx.symm
    · intro msg hd
      constructor
      · simp [poolPut, hnz, poolRemove, replaceStep, newStep, hd, ConnList.removeConn,
          hcs, hmem, Reason.render]
      · exact hnf

/-- C2, witness. -/
theorem c2_put_desync_routing_witness :
    (poolPut okOracleA poolWithB 0 connB =
      poolRemove okOracleA poolWithB 0 connB (Reason.protocolDesync connB.buffered)) ∧
    (poolPut okOracleA poolWithB 0 connB =
      .ok ({ poolWithB with
             conns := { poolWithB.conns with cns := some (connA :: [connB].erase connB) }
             freeConns := connA :: poolWithB.freeConns
             lastErr := some ("connection has unread data: " ++ toString connB.buffered) },
        0 + 1, none) ∧ connB ∉ connA :: poolWithB.freeConns) :=
  ⟨(c2_put_desync_routing okOracleA poolWithB 0 connB).2.1 (by decide),
   ((c2_put_desync_routing okOracleA poolWithB 0 connB).2.2 [connB] (by decide) (by rfl)
      (by decide) (by decide)).1 connA (by rfl) (by decide)⟩

/-- C9: the first `Close` of a bound open sticky pool releases the pinned
connection exactly once — through the backing pool's `Put` when `reusable`,
through its `Remove` with the not-reusable reason otherwise — clears the pin,
marks the pool closed, and every `Close` of an already-closed sticky pool
returns the closed-pool error and changes nothing. -/
theorem c9_sticky_close_release (oracle : Nat → DialStep) (s : StickyState) (k : Nat)
    (c : Conn) (hopen : s.closed = false) (hpin : s.cn = some c) :
    (∀ p' k' err, s.reusable = true → poolPut oracle s.pool k c = .ok (p', k', err) →
      stickyClose oracle s k = .ok (⟨p', s.reusable, none, true⟩, k', err)) ∧
    (∀ p' k' err, s.reusable = false →
      poolRemove oracle s.pool k c (Reason.message "redis: sticky not reusable connection") =
        .ok (p', k', err) →
      stickyClose oracle s k = .ok (⟨p', s.reusable, none, true⟩, k', err)) ∧
    (∀ s' k2, s'.closed = true →
      stickyClose oracle s' k2 = .ok (s', k2, some PoolErr.closedPool)) := by
  refine ⟨?_, ?_, ?_⟩
  · intro p' k' err hre hput
    simp [stickyClose, hopen, hpin, hre, stickyPutInner, hput]
  · intro p' k' err hre hrem
    simp [stickyClose, hopen, hpin, hre, stickyRemoveInner, hrem]
  · intro s' k2 hc
    simp [stickyClose, hc]

/-- C9, witness. -/
theorem c9_sticky_close_release_witness :
    stickyClose okOracleA ⟨PoolState.fresh optOne, true, some connA, false⟩ 0 =
      .ok (⟨{ PoolState.fresh optOne with freeConns := [connA] }, true, none, true⟩, 0, none) :=
  (c9_sticky_close_release okOracleA ⟨PoolState.fresh optOne, true, some connA, false⟩ 0
    connA (by rfl) (by rfl)).1
    { PoolState.fresh optOne with freeConns := [connA] } 0 none (by rfl) (by rfl)

/-- Two slot-range descriptors are non-overlapping. -/
def SlotDisjoint (a b : ClusterSlotInfo) : Prop :=
  a.endSlot < b.startSlot ∨ b.endSlot < a.startSlot

/-- A slot untouched by every descriptor of an update keeps its previous
entry. -/
theorem clusterUpdate_not_mem :
    ∀ (infos : List ClusterSlotInfo) (slots : Nat → List String) (s : Nat),
      (∀ info ∈ infos, ¬(info.startSlot ≤ s ∧ s ≤ info.endSlot)) →
      clusterUpdate slots infos s = slots s := by
  intro infos
  induction infos with
  | nil => intro slots s _; rfl
  | cons i rest ih =>
    intro slots s h
    have hrest := fun info hm => h info (List.mem_cons_of_mem i hm)
    have hi := h i (List.mem_cons_self i rest)
    calc clusterUpdate slots (i :: rest) s
        = clusterUpdate (applySlotInfo slots i) rest s := rfl
      _ = applySlotInfo slots i s := ih (applySlotInfo slots i) s hrest
      _ = slots s := by simp [applySlotInfo, hi]

/-- A slot inside the range of one descriptor of a pairwise non-overlapping
update receives exactly that descriptor's address list. -/
theorem clusterUpdate_mem :
    ∀ (infos : List ClusterSlotInfo) (slots : Nat → List String) (s : Nat)
      (info : ClusterSlotInfo), info ∈ infos → infos.Pairwise SlotDisjoint →
      info.startSlot ≤ s → s ≤ info.endSlot →
      clusterUpdate slots infos s = info.addrs := by
  intro infos
  induction infos with
  | nil => intro slots s info hm; exact absurd hm (List.not_mem_nil info)
  | cons i rest ih =>
    intro slots s info hm hpair h1 h2
    rcases List.mem_cons.mp hm with heq | hmem
    · subst heq
      have hdisj := List.pairwise_cons.mp hpair
      have hrest : ∀ b ∈ rest, ¬(b.startSlot ≤ s ∧ s ≤ b.endSlot) := by
        intro b hb hcontra
        rcases hdisj.1 b hb with hlt | hlt
        · exact absurd (lt_of_le_of_lt h2 hlt) (not_lt.mpr hcontra.1)
        · exact absurd (lt_of_le_of_lt hcontra.2 hlt) (not_lt.mpr h1)
      calc clusterUpdate slots (info :: rest) s
          = clusterUpdate (applySlotInfo slots info) rest s := rfl
        _ = applySlotInfo slots info s := clusterUpdate_not_mem rest _ s hrest
        _ = info.addrs := by simp [applySlotInfo, h1, h2]
    · exact ih (applySlotInfo slots i) s info hmem (List.pairwise_cons.mp hpair).2 h1 h2

/-- C8: `GetMasterAddrBySlot` returns the head of the slot's entry and the
empty string when the slot is unassigned; after an update from the reset map
with pairwise non-overlapping ranges, a slot inside some range receives the
first address of the range containing it. -/
theorem c8_master_addr_by_slot (infos : List ClusterSlotInfo) (s : Nat) (hs : s < HashSlots) :
    (∀ slots : Nat → List String, getMasterAddrBySlot slots s = (slots s).headD "") ∧
    (∀ slots : Nat → List String, slots s = [] → getMasterAddrBySlot slots s = "") ∧
    ((∀ info ∈ infos, ¬(info.startSlot ≤ s ∧ s ≤ info.endSlot)) →
      getMasterAddrBySlot (clusterUpdate emptySlots infos) s = "") ∧
    (∀ info ∈ infos, infos.Pairwise SlotDisjoint →
      info.startSlot ≤ s → s ≤ info.endSlot →
      getMasterAddrBySlot (clusterUpdate emptySlots infos) s = info.addrs.headD "") := by
  refine ⟨fun slots => rfl, ?_, ?_, ?_⟩
  · intro slots h
    simp [getMasterAddrBySlot, h]
  · intro h
    simp [getMasterAddrBySlot, clusterUpdate_not_mem infos emptySlots s h, emptySlots]
  · intro info hm hpair h1 h2
    simp [getMasterAddrBySlot, clusterUpdate_mem infos emptySlots s info hm hpair h1 h2]

/-- C8, witness: the four-range topology of the repository's cluster test. -/
theorem c8_master_addr_by_slot_witness :
    (∀ slots : Nat → List String, getMasterAddrBySlot slots 1000 = (slots 1000).headD "") ∧
    (∀ slots : Nat → List String, slots 1000 = [] → getMasterAddrBySlot slots 1000 = "") ∧
    ((∀ info ∈ [ClusterSlotInfo.mk 0 4095 ["127.0.0.1:7000", "127.0.0.1:7004"],
                ClusterSlotInfo.mk 12288 16383 ["127.0.0.1:7003", "127.0.0.1:7007"],
                ClusterSlotInfo.mk 4096 8191 ["127.0.0.1:7001", "127.0.0.1:7005"],
                ClusterSlotInfo.mk 8192 12287 ["127.0.0.1:7002", "127.0.0.1:7006"]],
        ¬(info.startSlot ≤ 1000 ∧ 1000 ≤ info.endSlot)) →
      getMasterAddrBySlot (clusterUpdate emptySlots
        [ClusterSlotInfo.mk 0 4095 ["127.0.0.1:7000", "127.0.0.1:7004"],
         ClusterSlotInfo.mk 12288 16383 ["127.0.0.1:7003", "127.0.0.1:7007"],
         ClusterSlotInfo.mk 4096 8191 ["127.0.0.1:7001", "127.0.0.1:7005"],
         ClusterSlotInfo.mk 8192 12287 ["127.0.0.1:7002", "127.0.0.1:7006"]]) 1000 = "") ∧
    (∀ info ∈ [ClusterSlotInfo.mk 0 4095 ["127.0.0.1:7000", "127.0.0.1:7004"],
               ClusterSlotInfo.mk 12288 16383 ["127.0.0.1:7003", "127.0.0.1:7007"],
               ClusterSlotInfo.mk 4096 8191 ["127.0.0.1:7001", "127.0.0.1:7005"],
               ClusterSlotInfo.mk 8192 12287 ["127.0.0.1:7002", "127.0.0.1:7006"]],
      [ClusterSlotInfo.mk 0 4095 ["127.0.0.1:7000", "127.0.0.1:7004"],
       ClusterSlotInfo.mk 12288 16383 ["127.0.0.1:7003", "127.0.0.1:7007"],
       ClusterSlotInfo.mk 4096 8191 ["127.0.0.1:7001", "127.0.0.1:7005"],
       ClusterSlotInfo.mk 8192 12287 ["127.0.0.1:7002", "127.0.0.1:7006"]].Pairwise SlotDisjoint →
      info.startSlot ≤ 1000 → 1000 ≤ info.endSlot →
      getMasterAddrBySlot (clusterUpdate emptySlots
        [ClusterSlotInfo.mk 0 4095 ["127.0.0.1:7000", "127.0.0.1:7004"],
         ClusterSlotInfo.mk 12288 16383 ["127.0.0.1:7003", "127.0.0.1:7007"],
         ClusterSlotInfo.mk 4096 8191 ["127.0.0.1:7001", "127.0.0.1:7005"],
         ClusterSlotInfo.mk 8192 12287 ["127.0.0.1:7002", "127.0.0.1:7006"]]) 1000 =
        info.addrs.headD "") :=
  c8_master_addr_by_slot
    [ClusterSlotInfo.mk 0 4095 ["127.0.0.1:7000", "127.0.0.1:7004"],
     ClusterSlotInfo.mk 12288 16383 ["127.0.0.1:7003", "127.0.0.1:7007"],
     ClusterSlotInfo.mk 4096 8191 ["127.0.0.1:7001", "127.0.0.1:7005"],
     ClusterSlotInfo.mk 8192 12287 ["127.0.0.1:7002", "127.0.0.1:7006"]]
    1000 (by decide)
/-- A search skips a prefix on which the predicate fails everywhere. -/
theorem find?_skip_take {α : Type} (l : List α) (n : Nat) (p : α → Bool)
    (h : ∀ x ∈ l.take n, ¬ p x) : l.find? p = (l.drop n).find? p := by
  conv_lhs => rw [← List.take_append_drop n l]
  rw [List.find?_append, List.find?_eq_none.mpr h, Option.none_or]

/-- With the first `n` addresses as the seen set, `next` answers the first
address after them, or the empty string once they are all seen. -/
theorem clusterNext_take (addrs : List String) (h : addrs.Nodup) (n : Nat) :
    clusterNext addrs (addrs.take n) = (addrs.drop n).headD "" := by
  have hstep := find?_skip_take addrs n (fun a => !((addrs.take n).contains a))
    (by intro x hx; simp [hx])
  rw [clusterNext, hstep]
  cases hd : addrs.drop n with
  | nil => simp
  | cons x t =>
    have hxd : x ∈ addrs.drop n := hd ▸ List.mem_cons_self x t
    have hxt : x ∉ addrs.take n := by
      have h2 : (addrs.take n ++ addrs.drop n).Nodup := by
        rw [List.take_append_drop]; exact h
      exact fun hmem => (List.nodup_append.mp h2).2.2 hmem hxd
    simp [List.find?, hxt]

/-- The iterated `next` walk: after `n` rounds the seen set and the answers
produced so far are both exactly the first `n` addresses. -/
theorem nextTrace_take (addrs : List String) (h : addrs.Nodup) (hne : "" ∉ addrs) :
    ∀ n, nextTrace addrs n = (addrs.take n, addrs.take n) := by
  intro n
  induction n with
  | zero => rfl
  | succ n ih =>
    rw [nextTrace, ih]
    simp only []
    rw [clusterNext_take addrs h n]
    cases hd : addrs.drop n with
    | nil =>
      have hlen : addrs.length ≤ n := by
        have := List.drop_eq_nil_iff.mp hd
        omega
      simp [List.take_of_length_le hlen, List.take_of_length_le (Nat.le_succ_of_le hlen)]
    | cons x t =>
      have hx : x ∈ addrs := List.mem_of_mem_drop (hd ▸ List.mem_cons_self x t)
      have hxne : ¬(x = "") := fun hxe => hne (hxe ▸ hx)
      have hget : addrs[n]? = some x := by
        have := List.getElem?_drop addrs n 0
        rw [hd] at this
        simpa using this.symm
      simp [hxne, List.take_succ, hget]

/-- C4: `next(seen)` never answers a member of a seen set that does not
contain the empty string; it answers the empty string once every address is
seen; iterating from the empty seen set enumerates the sorted address set in
order, each address exactly once, after which `next` answers the empty
string. -/
theorem c4_next_enumeration (addrs : List String)
    (hsorted : addrs.Pairwise (fun a b => a < b)) (hne : "" ∉ addrs) :
    (∀ seen, "" ∉ seen → clusterNext addrs seen ∉ seen) ∧
    (∀ seen, (∀ a ∈ addrs, a ∈ seen) → clusterNext addrs seen = "") ∧
    (∀ n, nextTrace addrs n = (addrs.take n, addrs.take n)) ∧
    nextTrace addrs addrs.length = (addrs, addrs) ∧
    clusterNext addrs addrs = "" := by
  have hnodup : addrs.Nodup := hsorted.imp (fun h => ne_of_lt h)
  have hall : ∀ seen, (∀ a ∈ addrs, a ∈ seen) → clusterNext addrs seen = "" := by
    intro seen hseen
    rw [clusterNext]
    have : addrs.find? (fun a => !(seen.contains a)) = none := by
      rw [List.find?_eq_none]
      intro x hx
      simp [hseen x hx]
    rw [this]
  refine ⟨?_, hall, nextTrace_take addrs hnodup hne, ?_, hall addrs (fun a ha => ha)⟩
  · intro seen hseen
    rw [clusterNext]
    cases hfind : addrs.find? (fun a => !(seen.contains a)) with
    | none => exact hseen
    | some a =>
      have := List.find?_some hfind
      simp at this
      exact this
  · rw [nextTrace_take addrs hnodup hne addrs.length]
    simp

/-- C4, witness. -/
theorem c4_next_enumeration_witness :
    (∀ seen, "" ∉ seen → clusterNext ["a", "b", "c"] seen ∉ seen) ∧
    (∀ seen, (∀ x ∈ ["a", "b", "c"], x ∈ seen) → clusterNext ["a", "b", "c"] seen = "") ∧
    (∀ n, nextTrace ["a", "b", "c"] n =
      (["a", "b", "c"].take n, ["a", "b", "c"].take n)) ∧
    nextTrace ["a", "b", "c"] (["a", "b", "c"].length) = (["a", "b", "c"], ["a", "b", "c"]) ∧
    clusterNext ["a", "b", "c"] ["a", "b", "c"] = "" :=
  c4_next_enumeration ["a", "b", "c"]
    (by
      have h1 : ("a" : String) < "b" := by rw [String.lt_iff_toList_lt]; decide
      have h2 : ("a" : String) < "c" := by rw [String.lt_iff_toList_lt]; decide
      have h3 : ("b" : String) < "c" := by rw [String.lt_iff_toList_lt]; decide
      simp [List.pairwise_cons, h1, h2, h3]
      decide)
    (by decide)

/-- No two successful dials of the oracle yield the same connection —
the freshness of distinct Go allocations. -/
def OracleDistinct (oracle : Nat → DialStep) : Prop :=
  ∀ i j c d, i ≠ j → oracle i = DialStep.ok c → oracle j = DialStep.ok d → c ≠ d

/-- From index `k` on, every connection the oracle dials is new: neither
registered nor sitting in the free stack. -/
def OracleFresh (oracle : Nat → DialStep) (k : Nat) (cs free : List Conn) : Prop :=
  ∀ j c, k ≤ j → oracle j = DialStep.ok c → c ∉ cs ∧ c ∉ free

/-- The pop-and-replace loop never faults on a well-formed registry and free
stack, preserves well-formedness, never grows the registry, drains the free
stack completely when it yields nothing, and consumes exactly one more free
entry than it removes registry entries when it yields a connection. -/
theorem firstLoop_spec (opt : Options) (now : Nat) (oracle : Nat → DialStep)
    (hdist : OracleDistinct oracle) :
    ∀ (free : List Conn) (k : Nat) (cl : ConnList) (le : Option String) (cs : List Conn),
      cl.cns = some cs → cs.Nodup → cl.size = (cs.length : Int) →
      free.Nodup → (∀ a ∈ free, a ∈ cs) → OracleFresh oracle k cs free →
      ∃ out cs',
        firstLoop opt now oracle free k cl le = .ok out ∧
        out.cl.cns = some cs' ∧ cs'.Nodup ∧ out.cl.size = (cs'.length : Int) ∧
        out.cl.max = cl.max ∧ k ≤ out.k ∧
        out.free.Sublist free ∧ (∀ a ∈ out.free, a ∈ cs') ∧
        OracleFresh oracle out.k cs' out.free ∧
        (∀ c, out.res = some c → c ∈ cs' ∧ c ∉ out.free) ∧
        (out.res = none → out.free = [] ∧ cs'.length + free.length = cs.length) ∧
        (out.res ≠ none →
          cs'.length + free.length = cs.length + out.free.length + 1 ∧
          out.free.length < free.length) := by
  intro free
  induction free with
  | nil =>
    intro k cl le cs hcs hnd hsz _ _ hfresh
    refine ⟨⟨[], k, cl, le, none⟩, cs, rfl, hcs, hnd, hsz, rfl, le_refl k,
      List.Sublist.refl [], ?_, hfresh, ?_, ?_, ?_⟩
    · intro a ha; exact absurd ha (List.not_mem_nil a)
    · intro c hc; exact absurd hc (by simp)
    · intro _; exact ⟨rfl, by simp⟩
    · intro hc; exact absurd rfl hc
  | cons cn rest ih =>
    intro k cl le cs hcs hnd hsz hfnd hsub hfresh
    have hmem : cn ∈ cs := hsub cn (List.mem_cons_self cn rest)
    have hcnrest : cn ∉ rest := (List.nodup_cons.mp hfnd).1
    have hrestnd : rest.Nodup := (List.nodup_cons.mp hfnd).2
    have hrestsub : ∀ a ∈ rest, a ∈ cs := fun a ha => hsub a (List.mem_cons_of_mem cn ha)
    have hlenpos : 0 < cs.length := List.length_pos_of_mem hmem
    have hlerase : (cs.erase cn).length = cs.length - 1 := List.length_erase_of_mem hmem
    cases hid : isIdle opt now cn with
    | false =>
      refine ⟨⟨rest, k, cl, le, some cn⟩, cs, ?_, hcs, hnd, hsz, rfl, le_refl k,
        List.sublist_cons_self cn rest, hrestsub, ?_, ?_, ?_, ?_⟩
      · simp [firstLoop, hid]
      · intro j c hj hc
        obtain ⟨h1, h2⟩ := hfresh j c hj hc
        exact ⟨h1, fun hmem2 => h2 (List.mem_cons_of_mem cn hmem2)⟩
      · intro c hc
        have hcc : cn = c := by injection hc
        subst hcc
        exact ⟨hmem, hcnrest⟩
      · intro h0; exact absurd h0 (by simp)
      · intro _
        refine ⟨?_, by simp⟩
        simp only [List.length_cons]
        omega
    | true =>
      cases ho : oracle k with
      | limited =>
        have hstep : firstLoop opt now oracle (cn :: rest) k cl le =
            firstLoop opt now oracle rest (k + 1)
              { cl with cns := some (cs.erase cn), size := cl.size - 1 } le := by
          simp [firstLoop, hid, replaceStep, newStep, ho, ConnList.removeConn, hcs, hmem]
        have hsub1 : ∀ a ∈ rest, a ∈ cs.erase cn := by
          intro a ha
          have hane : a ≠ cn := fun he => hcnrest (he ▸ ha)
          exact (List.mem_erase_of_ne hane).mpr (hrestsub a ha)
        have hfresh1 : OracleFresh oracle (k + 1) (cs.erase cn) rest := by
          intro j c hj hc
          obtain ⟨h1, h2⟩ := hfresh j c (by omega) hc
          exact ⟨fun hm => h1 (List.erase_subset _ _ hm), fun hm => h2 (List.mem_cons_of_mem cn hm)⟩
        obtain ⟨out, cs', heq, c1, c2, c3, c4, c5, c6, c7, c8, c9, c10, c11⟩ :=
          ih (k + 1) { cl with cns := some (cs.erase cn), size := cl.size - 1 } le
            (cs.erase cn) rfl (hnd.erase cn) (by simp only [hsz, hlerase]; omega)
            hrestnd hsub1 hfresh1
        refine ⟨out, cs', by rw [hstep]; exact heq, c1, c2, c3, c4, by omega,
          c6.trans (List.sublist_cons_self cn rest), c7, c8, c9, ?_, ?_⟩
        · intro hn
          obtain ⟨hf, hl⟩ := c10 hn
          refine ⟨hf, ?_⟩
          simp only [List.length_cons]
          omega
        · intro hn
          obtain ⟨hl, hlt⟩ := c11 hn
          refine ⟨?_, ?_⟩ <;> simp only [List.length_cons] <;> omega
      | fail msg =>
        have hstep : firstLoop opt now oracle (cn :: rest) k cl le =
            firstLoop opt now oracle rest (k + 1)
              { cl with cns := some (cs.erase cn), size := cl.size - 1 } (some msg) := by
          simp [firstLoop, hid, replaceStep, newStep, ho, ConnList.removeConn, hcs, hmem]
        have hsub1 : ∀ a ∈ rest, a ∈ cs.erase cn := by
          intro a ha
          have hane : a ≠ cn := fun he => hcnrest (he ▸ ha)
          exact (List.mem_erase_of_ne hane).mpr (hrestsub a ha)
        have hfresh1 : OracleFresh oracle (k + 1) (cs.erase cn) rest := by
          intro j c hj hc
          obtain ⟨h1, h2⟩ := hfresh j c (by omega) hc
          exact ⟨fun hm => h1 (List.erase_subset _ _ hm), fun hm => h2 (List.mem_cons_of_mem cn hm)⟩
        obtain ⟨out, cs', heq, c1, c2, c3, c4, c5, c6, c7, c8, c9, c10, c11⟩ :=
          ih (k + 1) { cl with cns := some (cs.erase cn), size := cl.size - 1 } (some msg)
            (cs.erase cn) rfl (hnd.erase cn) (by simp only [hsz, hlerase]; omega)
            hrestnd hsub1 hfresh1
        refine ⟨out, cs', by rw [hstep]; exact heq, c1, c2, c3, c4, by omega,
          c6.trans (List.sublist_cons_self cn rest), c7, c8, c9, ?_, ?_⟩
        · intro hn
          obtain ⟨hf, hl⟩ := c10 hn
          refine ⟨hf, ?_⟩
          simp only [List.length_cons]
          omega
        · intro hn
          obtain ⟨hl, hlt⟩ := c11 hn
          refine ⟨?_, ?_⟩ <;> simp only [List.length_cons] <;> omega
      | ok newcn =>
        obtain ⟨hnew1, hnew2⟩ := hfresh k newcn (le_refl k) ho
        have hstep : firstLoop opt now oracle (cn :: rest) k cl le =
            .ok ⟨rest, k + 1, { cl with cns := some (newcn :: cs.erase cn) }, le, some newcn⟩ := by
          simp [firstLoop, hid, replaceStep, newStep, ho, ConnList.replaceConn, hcs, hmem]
        have hnewerase : newcn ∉ cs.erase cn := fun hm => hnew1 (List.erase_subset _ _ hm)
        refine ⟨⟨rest, k + 1, { cl with cns := some (newcn :: cs.erase cn) }, le, some newcn⟩,
          newcn :: cs.erase cn, hstep, rfl, List.nodup_cons.mpr ⟨hnewerase, hnd.erase cn⟩,
          ?_, rfl, Nat.le_succ k, List.sublist_cons_self cn rest, ?_, ?_, ?_, ?_, ?_⟩
        · simp only [List.length_cons, hlerase, hsz]
          omega
        · intro a ha
          have hane : a ≠ cn := fun he => hcnrest (he ▸ ha)
          exact List.mem_cons_of_mem newcn ((List.mem_erase_of_ne hane).mpr (hrestsub a ha))
        · intro j c hj hc
          have hj2 : k + 1 ≤ j := hj
          obtain ⟨h1, h2⟩ := hfresh j c (by omega) hc
          have hcne : c ≠ newcn := hdist j k c newcn (by omega) hc ho
          refine ⟨?_, fun hm => h2 (List.mem_cons_of_mem cn hm)⟩
          intro hm
          rcases List.mem_cons.mp hm with he | hm2
          · exact hcne he
          · exact h1 (List.erase_subset _ _ hm2)
        · intro c hc
          have hcc : newcn = c := by injection hc
          subst hcc
          exact ⟨List.mem_cons_self newcn (cs.erase cn),
            fun hm => hnew2 (List.mem_cons_of_mem cn hm)⟩
        · intro h0; exact absurd h0 (by simp)
        · intro _
          constructor
          · dsimp only
            simp only [List.length_cons, hlerase]
            omega
          · dsimp only
            simp only [List.length_cons]
            omega

/-- Well-formedness of a pool state: the registry bound matches the
configured capacity; an open pool has a duplicate-free registry whose length
the size counter tracks and which contains every free-stack entry (itself
duplicate-free); a closed pool has a dropped registry map, a zero counter and
an empty free stack. -/
def PoolInv (opt : Options) (p : PoolState) : Prop :=
  p.conns.max = (opt.poolSize : Int) ∧
  ((p.closedFlag = true ∧ p.conns.cns = none ∧ p.conns.size = 0 ∧ p.freeConns = []) ∨
   (p.closedFlag = false ∧ ∃ cs, p.conns.cns = some cs ∧ cs.Nodup ∧
      p.conns.size = (cs.length : Int) ∧ cs.length ≤ opt.poolSize ∧
      p.freeConns.Nodup ∧ (∀ a ∈ p.freeConns, a ∈ cs)))

/-- A well-formed pool satisfies the two published bounds:
`FreeLen() <= Len()` and `Len() <= poolSize`. -/
theorem poolInv_bounds (opt : Options) (p : PoolState) (h : PoolInv opt p) :
    (poolFreeLen p : Int) ≤ poolLen p ∧ poolLen p ≤ (opt.poolSize : Int) := by
  obtain ⟨hmax, hcase⟩ := h
  rcases hcase with ⟨_, _, hsz, hfree⟩ | ⟨_, cs, hcs, hnd, hsz, hle, hfnd, hsub⟩
  · rw [poolLen, poolFreeLen, hsz, hfree]
    simp
  · have hlen : p.freeConns.length ≤ cs.length := by
      have h1 : p.freeConns.toFinset.card = p.freeConns.length :=
        List.toFinset_card_of_nodup hfnd
      have h2 : p.freeConns.toFinset ⊆ cs.toFinset := by
        intro a ha
        rw [List.mem_toFinset] at ha ⊢
        exact hsub a ha
      have h3 := Finset.card_le_card h2
      have h4 : cs.toFinset.card ≤ cs.length := cs.toFinset_card_le
      omega
    constructor
    · rw [poolLen, poolFreeLen, hsz]
      exact_mod_cast hlen
    · rw [poolLen, hsz]
      exact_mod_cast hle

/-- The overwriting error fold of `connList.Close` keeps the last close
error of the iteration order, if any. -/
theorem closeFold_eq_getLast (l : List Conn) :
    ∀ init : Option String,
      l.foldl (fun acc cn => match cn.closeErr with | some e => some e | none => acc) init =
        match (l.filterMap Conn.closeErr).getLast? with
        | some e => some e
        | none => init := by
  induction l with
  | nil => intro init; rfl
  | cons cn t ih =>
    intro init
    rw [List.foldl_cons, ih]
    cases hce : cn.closeErr with
    | none => simp [List.filterMap_cons, hce]
    | some e =>
      simp only [List.filterMap_cons, hce, List.getLast?_cons]
      cases hl : (t.filterMap Conn.closeErr).getLast? with
      | none => simp [hl]
      | some e2 => simp [hl]

/-- `Remove` on an open well-formed pool of a registered, not-free connection
never faults and preserves well-formedness, whatever the replacement dial
does. -/
theorem poolRemove_preserves (opt : Options) (oracle : Nat → DialStep) (p : PoolState)
    (k : Nat) (cn : Conn) (reason : Reason) (cs : List Conn)
    (hmax : p.conns.max = (opt.poolSize : Int)) (hopen : p.closedFlag = false)
    (hcs : p.conns.cns = some cs) (hnd : cs.Nodup)
    (hsz : p.conns.size = (cs.length : Int)) (hle : cs.length ≤ opt.poolSize)
    (hfnd : p.freeConns.Nodup) (hsub : ∀ a ∈ p.freeConns, a ∈ cs)
    (hmem : cn ∈ cs) (hnf : cn ∉ p.freeConns)
    (hfresh : OracleFresh oracle k cs p.freeConns) :
    ∃ p' k' err, poolRemove oracle p k cn reason = .ok (p', k', err) ∧ PoolInv opt p' := by
  have hlerase : (cs.erase cn).length = cs.length - 1 := List.length_erase_of_mem hmem
  have hlenpos : 0 < cs.length := List.length_pos_of_mem hmem
  have hnderase : (cs.erase cn).Nodup := hnd.erase cn
  have hsuberase : ∀ a ∈ p.freeConns, a ∈ cs.erase cn := by
    intro a ha
    have hane : a ≠ cn := fun he => hnf (he ▸ ha)
    exact (List.mem_erase_of_ne hane).mpr (hsub a ha)
  cases ho : oracle k with
  | limited =>
    refine ⟨{ p with
              conns := { p.conns with cns := some (cs.erase cn), size := p.conns.size - 1 }
              lastErr := some reason.render },
      k + 1, some (PoolErr.rateLimited reason.render), ?_, ?_⟩
    · simp [poolRemove, replaceStep, newStep, ho, ConnList.removeConn, hcs, hmem]
    · refine ⟨hmax, Or.inr ⟨hopen, cs.erase cn, rfl, hnderase, ?_, by omega, hfnd, hsuberase⟩⟩
      simp only [hsz, hlerase]
      omega
  | fail msg =>
    refine ⟨{ p with
              conns := { p.conns with cns := some (cs.erase cn), size := p.conns.size - 1 }
              lastErr := some msg },
      k + 1, some (PoolErr.dialFailed msg), ?_, ?_⟩
    · simp [poolRemove, replaceStep, newStep, ho, ConnList.removeConn, hcs, hmem]
    · refine ⟨hmax, Or.inr ⟨hopen, cs.erase cn, rfl, hnderase, ?_, by omega, hfnd, hsuberase⟩⟩
      simp only [hsz, hlerase]
      omega
  | ok newcn =>
    obtain ⟨hnew1, hnew2⟩ := hfresh k newcn (le_refl k) ho
    have hnewerase : newcn ∉ cs.erase cn := fun hm => hnew1 (List.erase_subset _ _ hm)
    refine ⟨{ p with
              conns := { p.conns with cns := some (newcn :: cs.erase cn) }
              freeConns := newcn :: p.freeConns
              lastErr := some reason.render },
      k + 1, none, ?_, ?_⟩
    · simp [poolRemove, replaceStep, newStep, ho, ConnList.replaceConn, hcs, hmem]
    · refine ⟨hmax, Or.inr ⟨hopen, newcn :: cs.erase cn, rfl,
        List.nodup_cons.mpr ⟨hnewerase, hnderase⟩, ?_, ?_,
        List.nodup_cons.mpr ⟨hnew2, hfnd⟩, ?_⟩⟩
      · simp only [hsz, List.length_cons, hlerase]
        omega
      · simp only [List.length_cons, hlerase]
        omega
      · intro a ha
        rcases List.mem_cons.mp ha with he | hm
        · exact he ▸ List.mem_cons_self newcn (cs.erase cn)
        · exact List.mem_cons_of_mem newcn (hsuberase a hm)

/-- `Put` on an open well-formed pool of a registered, not-free connection
never faults and preserves well-formedness, for clean and for
desynchronized connections alike. -/
theorem poolPut_preserves (opt : Options) (oracle : Nat → DialStep) (p : PoolState)
    (k : Nat) (cn : Conn) (cs : List Conn)
    (hmax : p.conns.max = (opt.poolSize : Int)) (hopen : p.closedFlag = false)
    (hcs : p.conns.cns = some cs) (hnd : cs.Nodup)
    (hsz : p.conns.size = (cs.length : Int)) (hle : cs.length ≤ opt.poolSize)
    (hfnd : p.freeConns.Nodup) (hsub : ∀ a ∈ p.freeConns, a ∈ cs)
    (hmem : cn ∈ cs) (hnf : cn ∉ p.freeConns)
    (hfresh : OracleFresh oracle k cs p.freeConns) :
    ∃ p' k' err, poolPut oracle p k cn = .ok (p', k', err) ∧ PoolInv opt p' := by
  by_cases hb : cn.buffered = []
  · refine ⟨{ p with freeConns := cn :: p.freeConns }, k, none, ?_, ?_⟩
    · simp [poolPut, hb]
    · refine ⟨hmax, Or.inr ⟨hopen, cs, hcs, hnd, hsz, hle,
        List.nodup_cons.mpr ⟨hnf, hfnd⟩, ?_⟩⟩
      intro a ha
      rcases List.mem_cons.mp ha with he | hm
      · exact he ▸ hmem
      · exact hsub a hm
  · have hput : poolPut oracle p k cn =
        poolRemove oracle p k cn (Reason.protocolDesync cn.buffered) := by
      simp [poolPut, hb]
    rw [hput]
    exact poolRemove_preserves opt oracle p k cn (Reason.protocolDesync cn.buffered) cs
      hmax hopen hcs hnd hsz hle hfnd hsub hmem hnf hfresh

/-- `Get` on a well-formed pool never faults and preserves well-formedness,
whatever path it takes: closed-pool failure, free-stack hit, fresh dial
(successful, failed or rate-limited), or the capacity wait that times out. -/
theorem poolGet_preserves (opt : Options) (now : Nat) (oracle : Nat → DialStep)
    (p : PoolState) (k : Nat) (hdist : OracleDistinct oracle) (hinv : PoolInv opt p)
    (hfresh : ∀ cs, p.conns.cns = some cs → OracleFresh oracle k cs p.freeConns) :
    ∃ r, poolGet opt now oracle p k = .ok r ∧ PoolInv opt r.1 := by
  obtain ⟨hmax, hcase⟩ := hinv
  rcases hcase with hclosed | ⟨hopen, cs, hcs, hnd, hsz, hle, hfnd, hsub⟩
  · refine ⟨(p, k, none, false, some PoolErr.closedPool), ?_, hmax, Or.inl hclosed⟩
    simp [poolGet, hclosed.1]
  · obtain ⟨out, cs1, heq, c1, c2, c3, c4, c5, c6, c7, c8, c9, c10, c11⟩ :=
      firstLoop_spec opt now oracle hdist p.freeConns k p.conns p.lastErr cs
        hcs hnd hsz hfnd hsub (hfresh cs hcs)
    have hmax1 : out.cl.max = (opt.poolSize : Int) := c4.trans hmax
    cases hres : out.res with
    | some c =>
      obtain ⟨hlen1, _⟩ := c11 (by rw [hres]; exact fun h => Option.noConfusion h)
      refine ⟨({ p with
                 requests := p.requests + 1
                 freeConns := out.free
                 conns := out.cl
                 lastErr := out.le
                 hits := p.hits + 1 }, out.k, some c, false, none), ?_, ?_⟩
      · simp [poolGet, hopen, heq, hres]
      · refine ⟨hmax1, Or.inr ⟨hopen, cs1, c1, c2, c3, by omega, c6.nodup hfnd, c7⟩⟩
    | none =>
      obtain ⟨hfe, hlen0⟩ := c10 hres
      by_cases hr : cs1.length + 1 ≤ opt.poolSize
      · have hcond : out.cl.size + 1 ≤ out.cl.max := by
          rw [c3, hmax1]
          exact_mod_cast hr
        have hrsv : out.cl.reserve = ({ out.cl with size := out.cl.size + 1 }, true) := by
          simp [ConnList.reserve, hcond]
        cases ho : oracle out.k with
        | ok newcn =>
          obtain ⟨hnew1, _⟩ := c8 out.k newcn (le_refl out.k) ho
          refine ⟨({ p with
                     requests := p.requests + 1
                     freeConns := out.free
                     conns := { out.cl with cns := some (newcn :: cs1), size := out.cl.size + 1 }
                     lastErr := out.le }, out.k + 1, some newcn, true, none), ?_, ?_⟩
          · simp [poolGet, hopen, heq, hres, hrsv, newStep, ho, ConnList.add, c1]
          · refine ⟨hmax1, Or.inr ⟨hopen, newcn :: cs1, rfl,
              List.nodup_cons.mpr ⟨hnew1, c2⟩, ?_, hr, ?_, ?_⟩⟩
            · simp only [c3, List.length_cons]
              omega
            · rw [hfe]
              exact List.nodup_nil
            · rw [hfe]
              intro a ha
              exact absurd ha (List.not_mem_nil a)
        | fail msg =>
          refine ⟨({ p with
                     requests := p.requests + 1
                     freeConns := out.free
                     conns := { out.cl with size := out.cl.size + 1 - 1 }
                     lastErr := some msg }, out.k + 1, none, true,
              some (PoolErr.dialFailed msg)), ?_, ?_⟩
          · simp [poolGet, hopen, heq, hres, hrsv, newStep, ho, ConnList.removeConn]
          · refine ⟨hmax1, Or.inr ⟨hopen, cs1, c1, c2, ?_, by omega, ?_, ?_⟩⟩
            · rw [c3]
              push_cast
              omega
            · rw [hfe]
              exact List.nodup_nil
            · rw [hfe]
              intro a ha
              exact absurd ha (List.not_mem_nil a)
        | limited =>
          refine ⟨({ p with
                     requests := p.requests + 1
                     freeConns := out.free
                     conns := { out.cl with size := out.cl.size + 1 - 1 }
                     lastErr := out.le }, out.k + 1, none, true,
              some (PoolErr.rateLimited (out.le.getD ""))), ?_, ?_⟩
          · simp [poolGet, hopen, heq, hres, hrsv, newStep, ho, ConnList.removeConn]
          · refine ⟨hmax1, Or.inr ⟨hopen, cs1, c1, c2, ?_, by omega, ?_, ?_⟩⟩
            · rw [c3]
              push_cast
              omega
            · rw [hfe]
              exact List.nodup_nil
            · rw [hfe]
              intro a ha
              exact absurd ha (List.not_mem_nil a)
      · have hcond : ¬(out.cl.size + 1 ≤ out.cl.max) := by
          rw [c3, hmax1]
          intro hcontra
          exact hr (by exact_mod_cast hcontra)
        have hrsv : out.cl.reserve = (out.cl, false) := by
          simp [ConnList.reserve, hcond]
        refine ⟨({ p with
                   requests := p.requests + 1
                   freeConns := []
                   conns := out.cl
                   lastErr := out.le
                   waits := p.waits + 1
                   timeouts := p.timeouts + 1 }, out.k, none, false,
            some PoolErr.poolTimeout), ?_, ?_⟩
        · simp [poolGet, hopen, heq, hres, hrsv, hfe, firstLoop]
        · refine ⟨hmax1, Or.inr ⟨hopen, cs1, c1, c2, c3, by omega, List.nodup_nil, ?_⟩⟩
          intro a ha
          exact absurd ha (List.not_mem_nil a)

/-- The grace drain of `Close` never faults on a well-formed pool and always
ends with an empty free stack and a well-formed, no-larger registry. -/
theorem closeDrain_spec (opt : Options) (now : Nat) (oracle : Nat → DialStep)
    (hdist : OracleDistinct oracle) :
    ∀ (fuel i : Nat) (p : PoolState) (k : Nat) (cs : List Conn),
      p.conns.cns = some cs → cs.Nodup → p.conns.size = (cs.length : Int) →
      p.freeConns.Nodup → (∀ a ∈ p.freeConns, a ∈ cs) →
      OracleFresh oracle k cs p.freeConns →
      p.freeConns.length + i ≤ cs.length →
      cs.length ≤ i + fuel →
      ∃ p' k' cs',
        closeDrain opt now oracle fuel i p k = .ok (p', k') ∧
        p'.conns.cns = some cs' ∧ cs'.Nodup ∧ p'.conns.size = (cs'.length : Int) ∧
        p'.conns.max = p.conns.max ∧ cs'.length ≤ cs.length ∧
        p'.freeConns = [] ∧ p'.closedFlag = p.closedFlag := by
  intro fuel
  induction fuel with
  | zero =>
    intro i p k cs hcs hnd hsz hfnd hsub hfresh hbound hfuel
    have hfe : p.freeConns = [] := List.length_eq_zero.mp (by omega)
    exact ⟨p, k, cs, rfl, hcs, hnd, hsz, rfl, le_refl _, hfe, rfl⟩
  | succ fuel ih =>
    intro i p k cs hcs hnd hsz hfnd hsub hfresh hbound hfuel
    by_cases hlt : (i : Int) < p.conns.size
    · obtain ⟨out, cs1, heq, c1, c2, c3, c4, c5, c6, c7, c8, c9, c10, c11⟩ :=
        firstLoop_spec opt now oracle hdist p.freeConns k p.conns p.lastErr cs
          hcs hnd hsz hfnd hsub hfresh
      cases hres : out.res with
      | none =>
        obtain ⟨hfe, _⟩ := c10 hres
        refine ⟨{ p with freeConns := out.free, conns := out.cl, lastErr := out.le },
          out.k, cs1, ?_, c1, c2, c3, c4, ?_, hfe, rfl⟩
        · simp [closeDrain, hlt, poolFirst, heq, hres]
        · obtain ⟨_, hlen⟩ := c10 hres
          omega
      | some c =>
        obtain ⟨hlen1, hlt1⟩ := c11 (by rw [hres]; exact fun h => Option.noConfusion h)
        obtain ⟨p', k', cs', hdrain, d1, d2, d3, d4, d5, d6, d7⟩ :=
          ih (i + 1) { p with freeConns := out.free, conns := out.cl, lastErr := out.le }
            out.k cs1 c1 c2 c3 (c6.nodup hfnd) c7 c8
            (by show out.free.length + (i + 1) ≤ cs1.length; omega)
            (by show cs1.length ≤ (i + 1) + fuel; omega)
        refine ⟨p', k', cs', ?_, d1, d2, d3, by rw [d4]; exact c4, by omega, d6, d7⟩
        have hstep : closeDrain opt now oracle (fuel + 1) i p k =
            closeDrain opt now oracle fuel (i + 1)
              { p with freeConns := out.free, conns := out.cl, lastErr := out.le } out.k := by
          simp [closeDrain, hlt, poolFirst, heq, hres]
        rw [hstep, hdrain]
    · have hige : cs.length ≤ i := by
        rw [hsz] at hlt
        omega
      have hfe : p.freeConns = [] := List.length_eq_zero.mp (by omega)
      refine ⟨p, k, cs, ?_, hcs, hnd, hsz, rfl, le_refl _, hfe, rfl⟩
      simp [closeDrain, hlt]

/-- The first `Close` of an open well-formed pool never faults: it drains the
free stack, force-closes and drops the whole registry, zeroes the size
counter, and answers the last close error reported by the remaining
registered connections, if any. -/
theorem poolClose_spec (opt : Options) (now : Nat) (oracle : Nat → DialStep)
    (p : PoolState) (k : Nat) (cs : List Conn) (hdist : OracleDistinct oracle)
    (hopen : p.closedFlag = false) (hmax : p.conns.max = (opt.poolSize : Int))
    (hcs : p.conns.cns = some cs) (hnd : cs.Nodup)
    (hsz : p.conns.size = (cs.length : Int)) (hle : cs.length ≤ opt.poolSize)
    (hfnd : p.freeConns.Nodup) (hsub : ∀ a ∈ p.freeConns, a ∈ cs)
    (hfresh : OracleFresh oracle k cs p.freeConns)
    (hbound : p.freeConns.length ≤ cs.length) :
    ∃ p1 k1 cs1,
      closeDrain opt now oracle p.conns.size.toNat 0 { p with closedFlag := true } k =
        .ok (p1, k1) ∧
      p1.conns.cns = some cs1 ∧ p1.freeConns = [] ∧ p1.closedFlag = true ∧
      p1.conns.max = (opt.poolSize : Int) ∧ cs1.length ≤ cs.length ∧
      poolClose opt now oracle p k =
        .ok ({ p1 with conns := { p1.conns with cns := none, size := 0 } }, k1,
          ((cs1.filterMap Conn.closeErr).getLast?).map PoolErr.connClose) := by
  have hfuel : p.conns.size.toNat = cs.length := by
    rw [hsz]
    exact Int.toNat_ofNat cs.length
  obtain ⟨p1, k1, cs1, hdrain, d1, d2, d3, d4, d5, d6, d7⟩ :=
    closeDrain_spec opt now oracle hdist p.conns.size.toNat 0
      { p with closedFlag := true } k cs hcs hnd hsz hfnd hsub hfresh
      (by show p.freeConns.length + 0 ≤ cs.length; omega)
      (by rw [hfuel]; omega)
  have hretErr : (p1.conns.cns.getD []).foldl
      (fun acc cn => match cn.closeErr with | some e => some e | none => acc) none =
      (cs1.filterMap Conn.closeErr).getLast? := by
    rw [d1]
    simp only [Option.getD_some]
    rw [closeFold_eq_getLast]
    cases (cs1.filterMap Conn.closeErr).getLast? <;> rfl
  refine ⟨p1, k1, cs1, hdrain, d1, d6, d7 ▸ rfl, by rw [d4]; exact hmax, d5, ?_⟩
  simp only [poolClose, hopen, Bool.false_eq_true, if_false, hdrain, ConnList.closeAll,
    hretErr]

/-- A duplicate-free list contained in another list is no longer than it. -/
theorem nodup_subset_length_le (l1 l2 : List Conn) (h1 : l1.Nodup)
    (hsub : ∀ a ∈ l1, a ∈ l2) : l1.length ≤ l2.length := by
  have hc1 : l1.toFinset.card = l1.length := List.toFinset_card_of_nodup h1
  have hc2 : l1.toFinset ⊆ l2.toFinset := by
    intro a ha
    rw [List.mem_toFinset] at ha ⊢
    exact hsub a ha
  have hc3 := Finset.card_le_card hc2
  have hc4 : l2.toFinset.card ≤ l2.length := l2.toFinset_card_le
  omega

/-- One reaper tick on a well-formed pool never faults and preserves
well-formedness. -/
theorem reaperTick_preserves (opt : Options) (now : Nat) (oracle : Nat → DialStep)
    (p : PoolState) (k : Nat) (hdist : OracleDistinct oracle) (hinv : PoolInv opt p)
    (hfresh : ∀ cs, p.conns.cns = some cs → OracleFresh oracle k cs p.freeConns) :
    ∃ r, reaperTick opt now oracle p k = .ok r ∧ PoolInv opt r.1 := by
  obtain ⟨hmax, hcase⟩ := hinv
  rcases hcase with hclosed | ⟨hopen, cs, hcs, hnd, hsz, hle, hfnd, hsub⟩
  · refine ⟨(p, k), ?_, hmax, Or.inl hclosed⟩
    simp [reaperTick, hclosed.1]
  · obtain ⟨out, cs1, heq, c1, c2, c3, c4, c5, c6, c7, c8, c9, c10, c11⟩ :=
      firstLoop_spec opt now oracle hdist p.freeConns k p.conns p.lastErr cs
        hcs hnd hsz hfnd hsub (hfresh cs hcs)
    have hmax1 : out.cl.max = (opt.poolSize : Int) := c4.trans hmax
    cases hres : out.res with
    | none =>
      obtain ⟨hfe, hlen⟩ := c10 hres
      refine ⟨({ p with freeConns := out.free, conns := out.cl, lastErr := out.le }, out.k),
        ?_, hmax1, Or.inr ⟨hopen, cs1, c1, c2, c3, by omega, ?_, ?_⟩⟩
      · simp [reaperTick, hopen, poolFirst, heq, hres]
      · show out.free.Nodup
        rw [hfe]
        exact List.nodup_nil
      · show ∀ a ∈ out.free, a ∈ cs1
        rw [hfe]
        intro a ha
        exact absurd ha (List.not_mem_nil a)
    | some cn =>
      obtain ⟨hmem1, hnf1⟩ := c9 cn hres
      obtain ⟨hlen1, hlt1⟩ := c11 (by rw [hres]; exact fun h => Option.noConfusion h)
      obtain ⟨p', k', err, hput, hinv'⟩ :=
        poolPut_preserves opt oracle
          { p with freeConns := out.free, conns := out.cl, lastErr := out.le } out.k cn cs1
          hmax1 hopen c1 c2 c3 (by omega) (c6.nodup hfnd) c7 hmem1 hnf1 c8
      rw [hopen] at hput
      refine ⟨(p', k'), ?_, hinv'⟩
      simp [reaperTick, hopen, poolFirst, heq, hres, hput]

/-- The pool state the closed-pool `Put` of the C5 counterexample produces:
a pushed free connection over an empty, closed registry. -/
def poolViolation : PoolState := { poolClosedEmpty with freeConns := [connA] }

/-- C5, counterexample: on a closed pool — a state every `Close` run ends in
and itself satisfying `FreeLen() <= Len()` — a `Put` of a still-held clean
connection pushes it onto the free stack while the registry stays empty,
leaving `FreeLen() = 1 > 0 = Len()`; so not every operation preserves the
claimed invariant. -/
theorem c5_counterexample :
    PoolInv optOne poolClosedEmpty ∧
    poolPut failOracle poolClosedEmpty 0 connA = .ok (poolViolation, 0, none) ∧
    poolLen poolViolation = 0 ∧ poolFreeLen poolViolation = 1 ∧
    ¬((poolFreeLen poolViolation : Int) ≤ poolLen poolViolation) := by
  refine ⟨⟨rfl, Or.inl ⟨rfl, rfl, rfl, rfl⟩⟩, rfl, rfl, rfl, by decide⟩

/-- C5, amended: on a well-formed pool (fresh oracle connections, free stack
duplicate-free and contained in the registry) the bounds
`FreeLen() <= Len() <= poolSize` hold, and `Get`, `Close` and the reaper tick
— and, as long as the pool has not been closed, also `Put` and `Remove` of a
held registered connection — never fault and preserve well-formedness; after
`Close` a further `Put` violates the free-length bound, as the counterexample
shows. -/
theorem c5_pool_bounds_invariant (opt : Options) (now : Nat) (oracle : Nat → DialStep)
    (p : PoolState) (k : Nat) (hdist : OracleDistinct oracle) (hinv : PoolInv opt p)
    (hfresh : ∀ cs, p.conns.cns = some cs → OracleFresh oracle k cs p.freeConns) :
    ((poolFreeLen p : Int) ≤ poolLen p ∧ poolLen p ≤ (opt.poolSize : Int)) ∧
    (∃ r, poolGet opt now oracle p k = .ok r ∧ PoolInv opt r.1) ∧
    (∀ cs cn, p.closedFlag = false → p.conns.cns = some cs → cn ∈ cs → cn ∉ p.freeConns →
      ∃ r, poolPut oracle p k cn = .ok r ∧ PoolInv opt r.1) ∧
    (∀ cs cn reason, p.closedFlag = false → p.conns.cns = some cs → cn ∈ cs →
      cn ∉ p.freeConns →
      ∃ r, poolRemove oracle p k cn reason = .ok r ∧ PoolInv opt r.1) ∧
    (∃ r, poolClose opt now oracle p k = .ok r ∧ PoolInv opt r.1) ∧
    (∃ r, reaperTick opt now oracle p k = .ok r ∧ PoolInv opt r.1) := by
  refine ⟨poolInv_bounds opt p hinv, ?_, ?_, ?_, ?_, ?_⟩
  · exact poolGet_preserves opt now oracle p k hdist hinv hfresh
  · intro cs cn hopen hcs hmem hnf
    obtain ⟨hmax, hcase⟩ := hinv
    rcases hcase with hclosed | ⟨_, cs2, hcs2, hnd, hsz, hle, hfnd, hsub⟩
    · rw [hopen] at hclosed
      exact absurd hclosed.1 (by simp)
    · have hcseq : cs2 = cs := by rw [hcs] at hcs2; exact (Option.some.inj hcs2).symm
      rw [hcseq] at hnd hsz hle hsub
      obtain ⟨p', k', err, hput, hinv'⟩ :=
        poolPut_preserves opt oracle p k cn cs hmax hopen hcs hnd hsz hle hfnd hsub
          hmem hnf (hfresh cs hcs)
      exact ⟨(p', k', err), hput, hinv'⟩
  · intro cs cn reason hopen hcs hmem hnf
    obtain ⟨hmax, hcase⟩ := hinv
    rcases hcase with hclosed | ⟨_, cs2, hcs2, hnd, hsz, hle, hfnd, hsub⟩
    · rw [hopen] at hclosed
      exact absurd hclosed.1 (by simp)
    · have hcseq : cs2 = cs := by rw [hcs] at hcs2; exact (Option.some.inj hcs2).symm
      rw [hcseq] at hnd hsz hle hsub
      obtain ⟨p', k', err, hrem, hinv'⟩ :=
        poolRemove_preserves opt oracle p k cn reason cs hmax hopen hcs hnd hsz hle
          hfnd hsub hmem hnf (hfresh cs hcs)
      exact ⟨(p', k', err), hrem, hinv'⟩
  · obtain ⟨hmax, hcase⟩ := hinv
    rcases hcase with hclosed | ⟨hopen, cs, hcs, hnd, hsz, hle, hfnd, hsub⟩
    · refine ⟨(p, k, some PoolErr.closedPool), ?_, hmax, Or.inl hclosed⟩
      simp [poolClose, hclosed.1]
    · obtain ⟨p1, k1, cs1, hdrain, d1, d2, d3, d4, d5, hclose⟩ :=
        poolClose_spec opt now oracle p k cs hdist hopen hmax hcs hnd hsz hle hfnd hsub
          (hfresh cs hcs) (nodup_subset_length_le p.freeConns cs hfnd hsub)
      refine ⟨({ p1 with conns := { p1.conns with cns := none, size := 0 } }, k1,
        ((cs1.filterMap Conn.closeErr).getLast?).map PoolErr.connClose), hclose, ?_⟩
      refine ⟨by show p1.conns.max = _; exact d4, Or.inl ⟨by show p1.closedFlag = true; exact d3, rfl, rfl, by show p1.freeConns = []; exact d2⟩⟩
  · exact reaperTick_preserves opt now oracle p k hdist hinv hfresh

/-- C5, witness. -/
theorem c5_pool_bounds_invariant_witness :
    ((poolFreeLen (PoolState.fresh optOne) : Int) ≤ poolLen (PoolState.fresh optOne) ∧
      poolLen (PoolState.fresh optOne) ≤ (optOne.poolSize : Int)) ∧
    (∃ r, poolGet optOne 0 failOracle (PoolState.fresh optOne) 0 = .ok r ∧
      PoolInv optOne r.1) :=
  ⟨(c5_pool_bounds_invariant optOne 0 failOracle (PoolState.fresh optOne) 0
      (by intro i j c d hij hi hj; exact absurd hi (by simp [failOracle]))
      ⟨rfl, Or.inr ⟨rfl, [], rfl, List.nodup_nil, rfl, by decide, List.nodup_nil,
        fun a ha => absurd ha (List.not_mem_nil a)⟩⟩
      (fun cs hcs j c hj hc => absurd hc (by simp [failOracle]))).1,
   (c5_pool_bounds_invariant optOne 0 failOracle (PoolState.fresh optOne) 0
      (by intro i j c d hij hi hj; exact absurd hi (by simp [failOracle]))
      ⟨rfl, Or.inr ⟨rfl, [], rfl, List.nodup_nil, rfl, by decide, List.nodup_nil,
        fun a ha => absurd ha (List.not_mem_nil a)⟩⟩
      (fun cs hcs j c hj hc => absurd hc (by simp [failOracle]))).2.1⟩

/-- A two-connection configuration for the close-error scenario. -/
def optTwo : Options := ⟨2, 0, 5⟩

/-- An open capacity-two pool holding two registered connections whose closes
report the distinct errors e1 and e2, both currently held by callers. -/
def poolTwoErr : PoolState :=
  { conns := { cns := some [connE1, connE2], size := 2, max := 2 }, freeConns := []
    requests := 0, hits := 0, waits := 0, timeouts := 0
    closedFlag := false, lastErr := none }

/-- C7, counterexample: closing a pool whose remaining registered connections
fail to close with e1 then e2, in that encounter order, returns e2 — the
last close error encountered, not the first. -/
theorem c7_counterexample :
    poolClose optTwo 0 failOracle poolTwoErr 0 =
      .ok ({ poolTwoErr with
             closedFlag := true
             conns := { cns := none, size := 0, max := 2 } },
        0, some (PoolErr.connClose "e2")) ∧
    ([connE1, connE2].filterMap Conn.closeErr).head? = some "e1" ∧
    PoolErr.connClose "e2" ≠ PoolErr.connClose "e1" := by
  exact ⟨rfl, rfl, by decide⟩

/-- C7, amended: `Close` is one-shot — every call on an already-closed pool
returns the closed error and changes nothing — and the first call on an open
well-formed pool drains the free stack completely (the drain is bounded by
the registry size at entry, the fuel of `closeDrain`), force-closes and drops
every remaining registered connection, and returns the last close error
encountered among them, if any. -/
theorem c7_close_last_error (opt : Options) (now : Nat) (oracle : Nat → DialStep)
    (p : PoolState) (k : Nat) (cs : List Conn) (hdist : OracleDistinct oracle)
    (hopen : p.closedFlag = false) (hmax : p.conns.max = (opt.poolSize : Int))
    (hcs : p.conns.cns = some cs) (hnd : cs.Nodup)
    (hsz : p.conns.size = (cs.length : Int)) (hle : cs.length ≤ opt.poolSize)
    (hfnd : p.freeConns.Nodup) (hsub : ∀ a ∈ p.freeConns, a ∈ cs)
    (hfresh : OracleFresh oracle k cs p.freeConns) :
    (∀ (q : PoolState) (kq : Nat), q.closedFlag = true →
      poolClose opt now oracle q kq = .ok (q, kq, some PoolErr.closedPool)) ∧
    (∃ p1 k1 cs1,
      closeDrain opt now oracle p.conns.size.toNat 0 { p with closedFlag := true } k =
        .ok (p1, k1) ∧
      p1.freeConns = [] ∧ p1.closedFlag = true ∧ p1.conns.cns = some cs1 ∧
      cs1.length ≤ cs.length ∧
      poolClose opt now oracle p k =
        .ok ({ p1 with conns := { p1.conns with cns := none, size := 0 } }, k1,
          ((cs1.filterMap Conn.closeErr).getLast?).map PoolErr.connClose) ∧
      ({ p1 with conns := { p1.conns with cns := none, size := 0 } } : PoolState).closedFlag
        = true) := by
  constructor
  · intro q kq hq
    simp [poolClose, hq]
  · obtain ⟨p1, k1, cs1, hdrain, d1, d2, d3, d4, d5, hclose⟩ :=
      poolClose_spec opt now oracle p k cs hdist hopen hmax hcs hnd hsz hle hfnd hsub
        hfresh (nodup_subset_length_le p.freeConns cs hfnd hsub)
    exact ⟨p1, k1, cs1, hdrain, d2, d3, d1, d5, hclose, d3⟩

/-- C7, witness. -/
theorem c7_close_last_error_witness :
    (∀ (q : PoolState) (kq : Nat), q.closedFlag = true →
      poolClose optTwo 0 failOracle q kq = .ok (q, kq, some PoolErr.closedPool)) ∧
    (∃ p1 k1 cs1,
      closeDrain optTwo 0 failOracle poolTwoErr.conns.size.toNat 0
        { poolTwoErr with closedFlag := true } 0 = .ok (p1, k1) ∧
      p1.freeConns = [] ∧ p1.closedFlag = true ∧ p1.conns.cns = some cs1 ∧
      cs1.length ≤ [connE1, connE2].length ∧
      poolClose optTwo 0 failOracle poolTwoErr 0 =
        .ok ({ p1 with conns := { p1.conns with cns := none, size := 0 } }, k1,
          ((cs1.filterMap Conn.closeErr).getLast?).map PoolErr.connClose) ∧
      ({ p1 with conns := { p1.conns with cns := none, size := 0 } } : PoolState).closedFlag
        = true) :=
  c7_close_last_error optTwo 0 failOracle poolTwoErr 0 [connE1, connE2]
    (by intro i j c d hij hi hj; exact absurd hi (by simp [failOracle]))
    (by rfl) (by rfl) (by rfl) (by decide) (by rfl) (by decide)
    List.nodup_nil (fun a ha => absurd ha (List.not_mem_nil a))
    (fun j c hj hc => absurd hc (by simp [failOracle]))

/-- C3, witness. -/
theorem c3_get_requests_increment_witness :
    (poolStats ({ PoolState.fresh optOne with requests := 1, lastErr := some "boom" } :
      PoolState)).requests = (poolStats (PoolState.fresh optOne)).requests + 1 :=
  (c3_get_requests_increment optOne 0 failOracle (PoolState.fresh optOne) 0).2 (by rfl)
    ({ PoolState.fresh optOne with requests := 1, lastErr := some "boom" },
      1, none, true, some (PoolErr.dialFailed "boom")) (by rfl)
